import Mathlib

/-!
Verification of the browser-session credential-recovery subsystem of the
blacksmith-mcp repository (src/src/utils/cookies.ts).

Modelling conventions (shallow embedding):
- Node Buffers and JavaScript strings are modelled as byte lists (List Nat),
  so Buffer.toString plus String round trips are the identity.  The only
  byte-level code points the source inspects (0x65 0x79 0x4a for the text
  marker, the comparisons with 127) decode one-to-one under UTF-8, so the
  byte-level model agrees with the string-level source on everything the
  claims mention.
- The AES-128 primitive used through Node createDecipheriv is modelled as an
  explicit block-level function parameter (KeyFn), standing for block
  decryption (or encryption) under the derived key.  A concrete executable
  AES-128 implementation is supplied below and validated against the
  FIPS-197 appendix C.1 test vector, so claims quantified over the real
  cipher can be evaluated on explicit inputs.
- Node createDecipheriv with the default autoPadding=true both strips and
  validates PKCS#7 padding inside decipher.final(), throwing on a ragged
  ciphertext length, on an empty ciphertext and on invalid padding; this is
  modelled by decipherFinal returning an Option.
- External effects (file existence, the macOS keychain, the SQLite store)
  are modelled by an explicit World record; a thrown exception at the
  database open or query step is modelled with Except.
-/

/-- A block-level cipher operation under a fixed derived key: the capability
that a 16-byte AES-128 key hands to CBC mode.  Both the encryption and the
decryption direction are values of this type. -/
abbrev KeyFn := List Nat → List Nat

/-- Bytewise XOR of two byte lists (truncating to the shorter, as zipWith). -/
def xorBytes (a b : List Nat) : List Nat := List.zipWith (fun x y => x ^^^ y) a b

/-- Split a byte list into 16-byte blocks; a final ragged chunk is kept as a
shorter block.  Fuel-indexed so that it is structurally recursive (the fuel
is an upper bound on the number of steps; each step removes 16 bytes). -/
def toBlocksFuel : Nat → List Nat → List (List Nat)
  | 0, _ => []
  | fuel + 1, l => if l = [] then [] else l.take 16 :: toBlocksFuel fuel (l.drop 16)

/-- Split a byte list into 16-byte blocks. -/
def toBlocks (l : List Nat) : List (List Nat) := toBlocksFuel l.length l

/-! ### AES-128, FIPS-197 (executable, for concrete instantiation)

The S-box tables are the standard FIPS-197 tables; they are validated below
by the appendix C.1 known-answer test (aes128_known_answer) and by the
involution check subByte_invSubByte. -/

/-- The AES forward S-box (FIPS-197 figure 7), as a 256-entry table. -/
def sbox : List Nat := [99, 124, 119, 123, 242, 107, 111, 197, 48, 1, 103, 43, 254, 215, 171, 118, 202, 130, 201, 125, 250, 89, 71, 240, 173, 212, 162, 175, 156, 164, 114, 192, 183, 253, 147, 38, 54, 63, 247, 204, 52, 165, 229, 241, 113, 216, 49, 21, 4, 199, 35, 195, 24, 150, 5, 154, 7, 18, 128, 226, 235, 39, 178, 117, 9, 131, 44, 26, 27, 110, 90, 160, 82, 59, 214, 179, 41, 227, 47, 132, 83, 209, 0, 237, 32, 252, 177, 91, 106, 203, 190, 57, 74, 76, 88, 207, 208, 239, 170, 251, 67, 77, 51, 133, 69, 249, 2, 127, 80, 60, 159, 168, 81, 163, 64, 143, 146, 157, 56, 245, 188, 182, 218, 33, 16, 255, 243, 210, 205, 12, 19, 236, 95, 151, 68, 23, 196, 167, 126, 61, 100, 93, 25, 115, 96, 129, 79, 220, 34, 42, 144, 136, 70, 238, 184, 20, 222, 94, 11, 219, 224, 50, 58, 10, 73, 6, 36, 92, 194, 211, 172, 98, 145, 149, 228, 121, 231, 200, 55, 109, 141, 213, 78, 169, 108, 86, 244, 234, 101, 122, 174, 8, 186, 120, 37, 46, 28, 166, 180, 198, 232, 221, 116, 31, 75, 189, 139, 138, 112, 62, 181, 102, 72, 3, 246, 14, 97, 53, 87, 185, 134, 193, 29, 158, 225, 248, 152, 17, 105, 217, 142, 148, 155, 30, 135, 233, 206, 85, 40, 223, 140, 161, 137, 13, 191, 230, 66, 104, 65, 153, 45, 15, 176, 84, 187, 22]

/-- The AES inverse S-box (FIPS-197 figure 14), as a 256-entry table. -/
def invSbox : List Nat := [82, 9, 106, 213, 48, 54, 165, 56, 191, 64, 163, 158, 129, 243, 215, 251, 124, 227, 57, 130, 155, 47, 255, 135, 52, 142, 67, 68, 196, 222, 233, 203, 84, 123, 148, 50, 166, 194, 35, 61, 238, 76, 149, 11, 66, 250, 195, 78, 8, 46, 161, 102, 40, 217, 36, 178, 118, 91, 162, 73, 109, 139, 209, 37, 114, 248, 246, 100, 134, 104, 152, 22, 212, 164, 92, 204, 93, 101, 182, 146, 108, 112, 72, 80, 253, 237, 185, 218, 94, 21, 70, 87, 167, 141, 157, 132, 144, 216, 171, 0, 140, 188, 211, 10, 247, 228, 88, 5, 184, 179, 69, 6, 208, 44, 30, 143, 202, 63, 15, 2, 193, 175, 189, 3, 1, 19, 138, 107, 58, 145, 17, 65, 79, 103, 220, 234, 151, 242, 207, 206, 240, 180, 230, 115, 150, 172, 116, 34, 231, 173, 53, 133, 226, 249, 55, 232, 28, 117, 223, 110, 71, 241, 26, 113, 29, 41, 197, 137, 111, 183, 98, 14, 170, 24, 190, 27, 252, 86, 62, 75, 198, 210, 121, 32, 154, 219, 192, 254, 120, 205, 90, 244, 31, 221, 168, 51, 136, 7, 199, 49, 177, 18, 16, 89, 39, 128, 236, 95, 96, 81, 127, 169, 25, 181, 74, 13, 45, 229, 122, 159, 147, 201, 156, 239, 160, 224, 59, 77, 174, 42, 245, 176, 200, 235, 187, 60, 131, 83, 153, 97, 23, 43, 4, 126, 186, 119, 214, 38, 225, 105, 20, 99, 85, 33, 12, 125]

/-- Forward S-box lookup. -/
def subByte (b : Nat) : Nat := sbox.getD b 0

/-- Inverse S-box lookup. -/
def invSubByte (b : Nat) : Nat := invSbox.getD b 0

/-- Multiplication by x in GF(2^8) modulo the AES polynomial. -/
def xtime (b : Nat) : Nat := if 128 ≤ b then ((b * 2) % 256) ^^^ 27 else b * 2

/-- GF(2^8) multiplication by the constants used in (Inv)MixColumns. -/
def gm2 (b : Nat) : Nat := xtime b

def gm3 (b : Nat) : Nat := xtime b ^^^ b

def gm4 (b : Nat) : Nat := xtime (xtime b)

def gm8 (b : Nat) : Nat := xtime (xtime (xtime b))

def gm9 (b : Nat) : Nat := gm8 b ^^^ b

def gm11 (b : Nat) : Nat := (gm8 b ^^^ gm2 b) ^^^ b

def gm13 (b : Nat) : Nat := (gm8 b ^^^ gm4 b) ^^^ b

def gm14 (b : Nat) : Nat := (gm8 b ^^^ gm4 b) ^^^ gm2 b

/-- AES SubBytes on a 16-byte state. -/
def subBytesState (s : List Nat) : List Nat := s.map subByte

/-- AES InvSubBytes on a 16-byte state. -/
def invSubBytesState (s : List Nat) : List Nat := s.map invSubByte

/-- AES ShiftRows on a column-major 16-byte state. -/
def shiftRows (s : List Nat) : List Nat :=
  match s with
  | [a0,a1,a2,a3,a4,a5,a6,a7,a8,a9,a10,a11,a12,a13,a14,a15] =>
      [a0,a5,a10,a15, a4,a9,a14,a3, a8,a13,a2,a7, a12,a1,a6,a11]
  | l => l

/-- AES InvShiftRows on a column-major 16-byte state. -/
def invShiftRows (s : List Nat) : List Nat :=
  match s with
  | [a0,a1,a2,a3,a4,a5,a6,a7,a8,a9,a10,a11,a12,a13,a14,a15] =>
      [a0,a13,a10,a7, a4,a1,a14,a11, a8,a5,a2,a15, a12,a9,a6,a3]
  | l => l

/-- AES MixColumns on one 4-byte column. -/
def mixCol : List Nat → List Nat
  | [a,b,c,d] =>
      [((gm2 a ^^^ gm3 b) ^^^ c) ^^^ d,
       ((a ^^^ gm2 b) ^^^ gm3 c) ^^^ d,
       ((a ^^^ b) ^^^ gm2 c) ^^^ gm3 d,
       ((gm3 a ^^^ b) ^^^ c) ^^^ gm2 d]
  | l => l

/-- AES InvMixColumns on one 4-byte column. -/
def invMixCol : List Nat → List Nat
  | [a,b,c,d] =>
      [((gm14 a ^^^ gm11 b) ^^^ gm13 c) ^^^ gm9 d,
       ((gm9 a ^^^ gm14 b) ^^^ gm11 c) ^^^ gm13 d,
       ((gm13 a ^^^ gm9 b) ^^^ gm14 c) ^^^ gm11 d,
       ((gm11 a ^^^ gm13 b) ^^^ gm9 c) ^^^ gm14 d]
  | l => l

/-- AES MixColumns on a 16-byte state. -/
def mixColumns (s : List Nat) : List Nat :=
  match s with
  | [a0,a1,a2,a3,a4,a5,a6,a7,a8,a9,a10,a11,a12,a13,a14,a15] =>
      mixCol [a0,a1,a2,a3] ++ mixCol [a4,a5,a6,a7] ++
      mixCol [a8,a9,a10,a11] ++ mixCol [a12,a13,a14,a15]
  | l => l

/-- AES InvMixColumns on a 16-byte state. -/
def invMixColumns (s : List Nat) : List Nat :=
  match s with
  | [a0,a1,a2,a3,a4,a5,a6,a7,a8,a9,a10,a11,a12,a13,a14,a15] =>
      invMixCol [a0,a1,a2,a3] ++ invMixCol [a4,a5,a6,a7] ++
      invMixCol [a8,a9,a10,a11] ++ invMixCol [a12,a13,a14,a15]
  | l => l

/-- AES round constant for round i (1-based). -/
def rconVal (i : Nat) : Nat := [1,2,4,8,16,32,64,128,27,54].getD (i - 1) 0

/-- One step of the AES-128 key schedule: round key i from round key i-1. -/
def nextRoundKey (i : Nat) (rk : List Nat) : List Nat :=
  match rk with
  | [k0,k1,k2,k3,k4,k5,k6,k7,k8,k9,k10,k11,k12,k13,k14,k15] =>
      let t := [subByte k13 ^^^ rconVal i, subByte k14, subByte k15, subByte k12]
      let w4 := xorBytes [k0,k1,k2,k3] t
      let w5 := xorBytes [k4,k5,k6,k7] w4
      let w6 := xorBytes [k8,k9,k10,k11] w5
      let w7 := xorBytes [k12,k13,k14,k15] w6
      ((w4 ++ w5) ++ w6) ++ w7
  | l => l

/-- Generate the list of round keys starting from round index i. -/
def roundKeysAux : Nat → Nat → List Nat → List (List Nat)
  | 0, _, rk => [rk]
  | n+1, i, rk => rk :: roundKeysAux n (i+1) (nextRoundKey i rk)

/-- The 11 AES-128 round keys of a 16-byte key. -/
def roundKeys (key : List Nat) : List (List Nat) := roundKeysAux 10 1 key

/-- The AES-128 cipher rounds (the initial AddRoundKey already applied). -/
def encRounds : List (List Nat) → List Nat → List Nat
  | [], s => s
  | [rk], s => xorBytes (shiftRows (subBytesState s)) rk
  | rk :: rks, s => encRounds rks (xorBytes (mixColumns (shiftRows (subBytesState s))) rk)

/-- AES-128 single-block encryption (FIPS-197 section 5.1). -/
def aesEncBlock (key : List Nat) (b : List Nat) : List Nat :=
  match roundKeys key with
  | rk0 :: rks => encRounds rks (xorBytes b rk0)
  | [] => b

/-- The AES-128 inverse cipher rounds (initial AddRoundKey already applied,
round keys supplied in reverse order). -/
def decRounds : List (List Nat) → List Nat → List Nat
  | [], s => s
  | [rk], s => xorBytes (invSubBytesState (invShiftRows s)) rk
  | rk :: rks, s => decRounds rks (invMixColumns (xorBytes (invSubBytesState (invShiftRows s)) rk))

/-- AES-128 single-block decryption (FIPS-197 section 5.3). -/
def aesDecBlock (key : List Nat) (b : List Nat) : List Nat :=
  match (roundKeys key).reverse with
  | rkN :: rks => decRounds rks (xorBytes b rkN)
  | [] => b

/-! ### Node crypto createDecipheriv / createCipheriv, CBC mode

The source constructs the decipher with createDecipheriv('aes-128-cbc', key,
iv) and never calls setAutoPadding(false), so decipher.update plus
decipher.final decrypt in CBC mode and then validate and strip PKCS#7
padding, throwing on a ciphertext whose length is zero or not a multiple of
the block size and on invalid padding. -/

/-- CBC-mode block decryption: plain_i = Dec(cipher_i) XOR cipher_(i-1),
seeded with the IV. -/
def cbcDecBlocks (key : KeyFn) : List Nat → List (List Nat) → List (List Nat)
  | _, [] => []
  | prev, c :: cs => xorBytes (key c) prev :: cbcDecBlocks key c cs

/-- CBC-mode block encryption: cipher_i = Enc(plain_i XOR cipher_(i-1)),
seeded with the IV. -/
def cbcEncBlocks (key : KeyFn) : List Nat → List (List Nat) → List (List Nat)
  | _, [] => []
  | prev, b :: bs =>
      let c := key (xorBytes b prev)
      c :: cbcEncBlocks key c bs

/-- PKCS#7 validation and removal as performed inside decipher.final(): the
last byte must be a padding length in 1..16 and all padding bytes must carry
that value, otherwise the decipher throws (modelled as none). -/
def pkcs7unpad (raw : List Nat) : Option (List Nat) :=
  let padv := raw.getLastD 0
  if 1 ≤ padv ∧ padv ≤ 16 ∧ padv ≤ raw.length ∧
      (raw.drop (raw.length - padv)).all (fun b => b == padv)
  then some (raw.take (raw.length - padv))
  else none

/-- The combined effect of decipher.update and decipher.final with the
default autoPadding: none models a thrown exception. -/
def decipherFinal (key : KeyFn) (iv : List Nat) (ct : List Nat) : Option (List Nat) :=
  if ct = [] ∨ ct.length % 16 ≠ 0 then none
  else pkcs7unpad ((cbcDecBlocks key iv (toBlocks ct)).flatten)

/-- PKCS#7 padding: k = 16 - len mod 16 bytes, each of value k. -/
def pkcs7pad (p : List Nat) : List Nat :=
  let k := 16 - p.length % 16
  p ++ List.replicate k k

/-! ### src/src/utils/cookies.ts -/

/-- The bytes of the version marker string 'v10' (cookies.ts line 82). -/
def v10marker : List Nat := [118, 49, 48]

/-- The bytes of the Laravel base64 marker string 'eyJ' (cookies.ts line 106). -/
def eyJmarker : List Nat := [101, 121, 74]

/-- The fixed IV: 16 space bytes, Buffer.alloc(16, ' ') (cookies.ts line 91). -/
def ivSpaces : List Nat := List.replicate 16 32

/-- Byte-level test that pat is a leading segment of hay (the match test that
String.prototype.indexOf performs at one position). -/
def leadMatch : List Nat → List Nat → Bool
  | [], _ => true
  | _ :: _, [] => false
  | p :: ps, h :: hs => p == h && leadMatch ps hs

/-- Helper for idxOfSub, carrying the current index. -/
def idxOfSubAux (pat : List Nat) : List Nat → Nat → Option Nat
  | [], i => if leadMatch pat [] then some i else none
  | h :: t, i => if leadMatch pat (h :: t) then some i else idxOfSubAux pat t (i + 1)

/-- First index of a substring, as String.prototype.indexOf (none for -1). -/
def idxOfSub (hay pat : List Nat) : Option Nat := idxOfSubAux pat hay 0

/-- The manual padding-strip step of cookies.ts lines 97-101: read the last
byte; if it is truthy (nonzero) and at most 16, slice that many bytes off the
end; otherwise leave the buffer unchanged. -/
def stripPadding (decrypted : List Nat) : List Nat :=
  let padv := decrypted.getLastD 0
  if padv ≠ 0 ∧ padv ≤ 16 then decrypted.take (decrypted.length - padv)
  else decrypted

/-- The 32-byte MAC/metadata skip of cookies.ts lines 112-118: if the buffer
is longer than 32 bytes and its first byte is greater than 127, drop 32
bytes and return the remainder when it is non-empty and starts with a byte
below 127; in every other case return the whole buffer. -/
def recoverTail (decrypted : List Nat) : List Nat :=
  if 32 < decrypted.length ∧ 127 < decrypted.headD 0 then
    if decrypted.drop 32 ≠ [] ∧ (decrypted.drop 32).headD 0 < 127 then decrypted.drop 32
    else decrypted
  else decrypted

/-- The payload-recovery chain of cookies.ts lines 103-120: look for 'eyJ'
and return the suffix from a strictly positive first occurrence, else try
the 32-byte metadata skip, else return the whole buffer. -/
def recoverPayload (decrypted : List Nat) : List Nat :=
  match idxOfSub decrypted eyJmarker with
  | some i => if 0 < i then decrypted.drop i else recoverTail decrypted
  | none => recoverTail decrypted

/-- decryptCookieValue (cookies.ts lines 79-125).  The derived key is passed
as the block-decryption capability it induces.  A buffer that does not start
with 'v10' is returned as-is; otherwise the remainder is deciphered
(decipher.final throwing maps to none, caught at line 121), the manual
padding strip runs, and payload recovery produces the result. -/
def decryptCookieValue (key : KeyFn) (encryptedValue : List Nat) : Option (List Nat) :=
  if encryptedValue.take 3 ≠ v10marker then
    some encryptedValue
  else
    match decipherFinal key ivSpaces (encryptedValue.drop 3) with
    | none => none
    | some decrypted => some (recoverPayload (stripPadding decrypted))

/-- Priority order of known cookie names (cookies.ts line 21). -/
def COOKIE_NAMES : List String := ["blacksmith_session", "session", "__session", "connect.sid"]

/-- A row of the cookies table (cookies.ts lines 41-50); value and
encrypted_value are byte lists, the rest of the columns are carried as
queried. -/
structure ChromeCookie where
  name : String
  value : List Nat
  encrypted_value : List Nat
  host_key : String
  path : String
  expires_utc : Nat
  is_httponly : Nat
  is_secure : Nat

/-- getCookieValue (cookies.ts lines 221-236): prefer a non-empty plain
value; otherwise decrypt the encrypted value when a key is available;
otherwise null. -/
def getCookieValue (cookie : ChromeCookie) (encryptionKey : Option KeyFn) : Option (List Nat) :=
  if cookie.value ≠ [] then some cookie.value
  else if cookie.encrypted_value ≠ [] then
    match encryptionKey with
    | some key => decryptCookieValue key cookie.encrypted_value
    | none => none
  else none

/-- The first loop of the Selection Policy (cookies.ts lines 187-196): walk
the priority list of names; for each, take the first record of that name and
return its value when usable. -/
def prioritySearch (encryptionKey : Option KeyFn) (cookies : List ChromeCookie) :
    List String → Option (List Nat)
  | [] => none
  | n :: ns =>
      match cookies.find? (fun c => c.name == n) with
      | some cookie =>
          match getCookieValue cookie encryptionKey with
          | some v => some v
          | none => prioritySearch encryptionKey cookies ns
      | none => prioritySearch encryptionKey cookies ns

/-- The second loop of the Selection Policy (cookies.ts lines 199-205):
first record with a usable value, in query order. -/
def fallbackSearch (encryptionKey : Option KeyFn) : List ChromeCookie → Option (List Nat)
  | [] => none
  | cookie :: cs =>
      match getCookieValue cookie encryptionKey with
      | some v => some v
      | none => fallbackSearch encryptionKey cs

/-- The Selection Policy (cookies.ts lines 187-208): known names first, then
any record, else null. -/
def selectCookie (encryptionKey : Option KeyFn) (cookies : List ChromeCookie) : Option (List Nat) :=
  match prioritySearch encryptionKey cookies COOKIE_NAMES with
  | some v => some v
  | none => fallbackSearch encryptionKey cookies

/-- CHROME_COOKIE_PATHS (cookies.ts lines 24-39), with homedir() and
process.env.LOCALAPPDATA passed explicitly; an unknown platform has no
entry. -/
def CHROME_COOKIE_PATHS (home localAppData platform : String) : Option (List String) :=
  if platform = "darwin" then
    some [home ++ "/Library/Application Support/Google/Chrome/Default/Cookies",
          home ++ "/Library/Application Support/Google/Chrome/Profile 1/Cookies"]
  else if platform = "linux" then
    some [home ++ "/.config/google-chrome/Default/Cookies",
          home ++ "/.config/chromium/Default/Cookies"]
  else if platform = "win32" then
    some [localAppData ++ "/Google/Chrome/User Data/Default/Network/Cookies"]
  else none

/-- The environment a resolution attempt runs in: the platform tag, the
file system, the keychain, and the cookie database.  keychainSecret is the
Key Provider plus Key Derivation outcome: the derived decryption capability,
or none when the security CLI call fails (that failure is caught inside
getMacOSEncryptionKey and becomes null).  openOk and queryOk model whether
the database open and the SELECT statement throw; rows is the query result
for the blacksmith.sh domain filter. -/
structure World where
  platform : String
  home : String
  localAppData : String
  existingPaths : List String
  keychainSecret : Option KeyFn
  openOk : Bool
  queryOk : Bool
  rows : List ChromeCookie

/-- getMacOSEncryptionKey (cookies.ts lines 55-70): the keychain lookup and
PBKDF2 derivation, returning the derived capability or null on a caught
failure. -/
def getMacOSEncryptionKey (w : World) : Option KeyFn := w.keychainSecret

/-- findCookieDatabase (cookies.ts lines 130-148): null for an unsupported
platform, else the first candidate path that exists, else null. -/
def findCookieDatabase (w : World) : Option String :=
  match CHROME_COOKIE_PATHS w.home w.localAppData w.platform with
  | none => none
  | some paths => paths.find? (fun p => w.existingPaths.contains p)

/-- The encryption key obtained by the pipeline (cookies.ts lines 163-170):
the macOS keychain is consulted only when the platform is darwin. -/
def pipelineKey (w : World) : Option KeyFn :=
  if w.platform = "darwin" then getMacOSEncryptionKey w else none

/-- The body of the try block of extractBlacksmithCookie (cookies.ts lines
156-208): locate the store (missing store returns null without error), fetch
the key, open the store, query, and select.  A throw at the open or query
step is an Except.error that the catch at line 212 will absorb. -/
def chromePipeline (w : World) : Except String (Option (List Nat)) :=
  match findCookieDatabase w with
  | none => Except.ok none
  | some _ =>
      let encryptionKey := pipelineKey w
      if w.openOk = false then Except.error "open failed"
      else if w.queryOk = false then Except.error "query failed"
      else Except.ok (selectCookie encryptionKey w.rows)

/-- extractBlacksmithCookie (cookies.ts lines 154-216): the whole pipeline
inside try/catch; any pipeline exception becomes null. -/
def extractBlacksmithCookie (w : World) : Option (List Nat) :=
  match chromePipeline w with
  | Except.ok r => r
  | Except.error _ => none

/-- getSessionCookie (cookies.ts lines 242-252).  The first component is the
returned value; the second records whether the Chrome extraction pipeline
was entered (false when the BLACKSMITH_SESSION_COOKIE override
short-circuits).  A present but empty override string is falsy and does not
short-circuit. -/
def getSessionCookie (envCookie : Option (List Nat)) (w : World) : Option (List Nat) × Bool :=
  match envCookie with
  | some v => if v ≠ [] then (some v, false) else (extractBlacksmithCookie w, true)
  | none => (extractBlacksmithCookie w, true)

/-! ### Modelled from the spec: the encryption direction -/

/-- Modelled from the spec: the repository has no encryption function, so
the format the engine consumes is built from the spec's words — version
marker 'v10' prefix, AES-128-CBC with the fixed all-space 16-byte IV, and
PKCS#7 padding.  The cipher's block-encryption capability is the key
parameter. -/
def chromeEncrypt (key : KeyFn) (plaintext : List Nat) : List Nat :=
  v10marker ++ (cbcEncBlocks key ivSpaces (toBlocks (pkcs7pad plaintext))).flatten

/-! ### Concrete data for witnesses and counterexamples -/

/-- The identity block operation: a legitimate instantiation of the abstract
block-cipher parameter (trivial key) for witnesses. -/
def idKeyFn : KeyFn := fun b => b

/-- FIPS-197 appendix C.1 key. -/
def fipsKey : List Nat := [0,1,2,3,4,5,6,7,8,9,10,11,12,13,14,15]

/-- FIPS-197 appendix C.1 plaintext block. -/
def fipsPlain : List Nat := [0,17,34,51,68,85,102,119,136,153,170,187,204,221,238,255]

/-- FIPS-197 appendix C.1 ciphertext block. -/
def fipsCipher : List Nat := [105,196,224,216,106,123,4,48,216,205,183,128,112,180,197,90]

/-- A concrete AES-128 key for the round-trip counterexample. -/
def c2key : List Nat := [0,1,2,3,4,5,6,7,8,9,10,11,12,13,14,15]

/-- A plaintext whose last byte lies in 1..16: the manual padding strip of
cookies.ts line 98-101 fires on it a second time. -/
def c2plain : List Nat := [97, 98, 1]

/-- The bytes of the string "token-body". -/
def tokenBody : List Nat := [116, 111, 107, 101, 110, 45, 98, 111, 100, 121]

/-- Candidate record named "other" whose encrypted value decrypts (plaintext
passthrough: no version marker). -/
def cookieOther : ChromeCookie :=
  { name := "other", value := [], encrypted_value := [111, 49, 49],
    host_key := "app.blacksmith.sh", path := "/", expires_utc := 0,
    is_httponly := 1, is_secure := 1 }

/-- Candidate record named "session" whose encrypted value decrypts. -/
def cookieSession : ChromeCookie :=
  { name := "session", value := [], encrypted_value := [115, 49, 49],
    host_key := "app.blacksmith.sh", path := "/", expires_utc := 0,
    is_httponly := 1, is_secure := 1 }

/-- Candidate record named "blacksmith_session" whose encrypted value
decrypts. -/
def cookieBlacksmith : ChromeCookie :=
  { name := "blacksmith_session", value := [], encrypted_value := [98, 49, 49],
    host_key := "app.blacksmith.sh", path := "/", expires_utc := 0,
    is_httponly := 1, is_secure := 1 }

/-- Record with an unknown name and no usable value at all. -/
def cookieUnknownA : ChromeCookie :=
  { name := "foo", value := [], encrypted_value := [],
    host_key := "blacksmith.sh", path := "/", expires_utc := 0,
    is_httponly := 0, is_secure := 0 }

/-- Record with an unknown name and a usable plain value. -/
def cookieUnknownB : ChromeCookie :=
  { name := "bar", value := [120], encrypted_value := [],
    host_key := "blacksmith.sh", path := "/", expires_utc := 0,
    is_httponly := 0, is_secure := 0 }

/-- Record that only exists encrypted (empty plain value). -/
def cookieEncOnly : ChromeCookie :=
  { name := "blacksmith_session", value := [], encrypted_value := [118, 49, 48, 7],
    host_key := "app.blacksmith.sh", path := "/", expires_utc := 0,
    is_httponly := 1, is_secure := 1 }

/-- A linux environment in which no candidate cookie database exists. -/
def wNoStore : World :=
  { platform := "linux", home := "/home/u", localAppData := "",
    existingPaths := [], keychainSecret := none,
    openOk := true, queryOk := true, rows := [] }

/-- A linux environment whose store opens and whose domain query returns
zero rows. -/
def wEmptyStore : World :=
  { platform := "linux", home := "/home/u", localAppData := "",
    existingPaths := ["/home/u/.config/google-chrome/Default/Cookies"],
    keychainSecret := none, openOk := true, queryOk := true, rows := [] }

/-- A linux environment in which opening the store throws. -/
def wOpenThrows : World :=
  { platform := "linux", home := "/home/u", localAppData := "",
    existingPaths := ["/home/u/.config/google-chrome/Default/Cookies"],
    keychainSecret := none, openOk := false, queryOk := true, rows := [] }

/-- A linux environment in which a keychain secret would exist (the macOS
keychain is never consulted off darwin, so it must stay unused). -/
def wLinuxKey : World :=
  { platform := "linux", home := "/home/u", localAppData := "",
    existingPaths := ["/home/u/.config/google-chrome/Default/Cookies"],
    keychainSecret := some idKeyFn, openOk := true, queryOk := true,
    rows := [cookieEncOnly] }

/-! ### List, padding and CBC helper lemmas -/

theorem toBlocksFuel_nil (f : Nat) : toBlocksFuel f [] = [] := by
  cases f <;> simp [toBlocksFuel]

theorem toBlocksFuel_congr :
    ∀ (f₁ f₂ : Nat) (l : List Nat), l.length ≤ f₁ → l.length ≤ f₂ →
      toBlocksFuel f₁ l = toBlocksFuel f₂ l := by
  intro f₁
  induction f₁ with
  | zero =>
      intro f₂ l h₁ _
      have hl : l = [] := List.eq_nil_of_length_eq_zero (Nat.le_zero.mp h₁)
      subst hl
      simp [toBlocksFuel_nil]
  | succ n ih =>
      intro f₂ l h₁ h₂
      cases l with
      | nil => simp [toBlocksFuel_nil]
      | cons a t =>
          cases f₂ with
          | zero => simp at h₂
          | succ m =>
              simp only [toBlocksFuel, if_neg (by simp : ¬(a :: t = []))]
              have hlen : ((a :: t).drop 16).length = (a :: t).length - 16 :=
                List.length_drop 16 (a :: t)
              congr 1
              apply ih
              · rw [hlen]; simp only [List.length_cons] at h₁ ⊢; omega
              · rw [hlen]; simp only [List.length_cons] at h₂ ⊢; omega

theorem toBlocks_ne (l : List Nat) (h : l ≠ []) :
    toBlocks l = l.take 16 :: toBlocks (l.drop 16) := by
  cases l with
  | nil => exact absurd rfl h
  | cons a t =>
      show toBlocksFuel (t.length + 1) (a :: t) = _
      simp only [toBlocksFuel, if_neg (by simp : ¬(a :: t = []))]
      congr 1
      apply toBlocksFuel_congr
      · rw [List.length_drop]; simp only [List.length_cons]; omega
      · exact le_rfl

theorem flatten_toBlocks (l : List Nat) : (toBlocks l).flatten = l := by
  suffices H : ∀ (n : Nat) (l : List Nat), l.length ≤ n → (toBlocks l).flatten = l from
    H l.length l le_rfl
  intro n
  induction n with
  | zero =>
      intro l h
      have hl : l = [] := List.eq_nil_of_length_eq_zero (Nat.le_zero.mp h)
      subst hl; rfl
  | succ n ih =>
      intro l h
      by_cases hl : l = []
      · subst hl; rfl
      · have hpos : 0 < l.length := List.length_pos.mpr hl
        rw [toBlocks_ne l hl, List.flatten_cons,
          ih (l.drop 16) (by rw [List.length_drop]; omega)]
        exact List.take_append_drop 16 l

theorem toBlocks_block (b rest : List Nat) (hb : b.length = 16) :
    toBlocks (b ++ rest) = b :: toBlocks rest := by
  have hbne : b ≠ [] := by intro h; subst h; simp at hb
  have hne : b ++ rest ≠ [] := by simp [hbne]
  have h₁ : (b ++ rest).take 16 = b := by rw [← hb]; exact List.take_left b rest
  have h₂ : (b ++ rest).drop 16 = rest := by rw [← hb]; exact List.drop_left b rest
  rw [toBlocks_ne _ hne, h₁, h₂]

theorem toBlocks_flatten_blocks (bs : List (List Nat)) (h : ∀ b ∈ bs, b.length = 16) :
    toBlocks bs.flatten = bs := by
  induction bs with
  | nil => rfl
  | cons b bs ih =>
      rw [List.flatten_cons, toBlocks_block b _ (h b (by simp)),
        ih (fun x hx => h x (by simp [hx]))]

theorem length_xorBytes (a b : List Nat) :
    (xorBytes a b).length = min a.length b.length := by
  simp [xorBytes]

theorem xorBytes_cancel (a b : List Nat) (h : a.length = b.length) :
    xorBytes (xorBytes a b) b = a := by
  induction a generalizing b with
  | nil => cases b with
      | nil => rfl
      | cons y ys => simp at h
  | cons x xs ih =>
      cases b with
      | nil => simp at h
      | cons y ys =>
          have h' : xs.length = ys.length := by simpa using h
          show ((x ^^^ y) ^^^ y) :: xorBytes (xorBytes xs ys) ys = x :: xs
          rw [ih ys h', Nat.xor_assoc, Nat.xor_self, Nat.xor_zero]

theorem cbcEncBlocks_len (key : KeyFn) (hLen : ∀ b, b.length = 16 → (key b).length = 16) :
    ∀ (bs : List (List Nat)) (prev : List Nat), prev.length = 16 →
      (∀ b ∈ bs, b.length = 16) → ∀ c ∈ cbcEncBlocks key prev bs, c.length = 16 := by
  intro bs
  induction bs with
  | nil => intro prev _ _ c hc; simp [cbcEncBlocks] at hc
  | cons b bs ih =>
      intro prev hprev hall c hc
      have hb : b.length = 16 := hall b (by simp)
      have hxl : (xorBytes b prev).length = 16 := by
        rw [length_xorBytes, hb, hprev]; simp
      have hcl : (key (xorBytes b prev)).length = 16 := hLen _ hxl
      simp only [cbcEncBlocks] at hc
      rcases List.mem_cons.mp hc with h1 | h2
      · subst h1; exact hcl
      · exact ih (key (xorBytes b prev)) hcl (fun x hx => hall x (by simp [hx])) c h2

theorem cbcDec_of_cbcEnc (enc dec : KeyFn)
    (hLen : ∀ b, b.length = 16 → (enc b).length = 16)
    (hInv : ∀ b, b.length = 16 → dec (enc b) = b) :
    ∀ (bs : List (List Nat)) (prev : List Nat), prev.length = 16 →
      (∀ b ∈ bs, b.length = 16) →
      cbcDecBlocks dec prev (cbcEncBlocks enc prev bs) = bs := by
  intro bs
  induction bs with
  | nil => intro prev _ _; rfl
  | cons b bs ih =>
      intro prev hprev hall
      have hb : b.length = 16 := hall b (by simp)
      have hxl : (xorBytes b prev).length = 16 := by
        rw [length_xorBytes, hb, hprev]; simp
      show xorBytes (dec (enc (xorBytes b prev))) prev ::
        cbcDecBlocks dec (enc (xorBytes b prev))
          (cbcEncBlocks enc (enc (xorBytes b prev)) bs) = b :: bs
      rw [hInv _ hxl, xorBytes_cancel b prev (by rw [hb, hprev]),
        ih (enc (xorBytes b prev)) (hLen _ hxl) (fun x hx => hall x (by simp [hx]))]

theorem blocks16_of_mod (l : List Nat) (h : l.length % 16 = 0) :
    ∀ b ∈ toBlocks l, b.length = 16 := by
  suffices H : ∀ (n : Nat) (l : List Nat), l.length ≤ n → l.length % 16 = 0 →
      ∀ b ∈ toBlocks l, b.length = 16 from H l.length l le_rfl h
  intro n
  induction n with
  | zero =>
      intro l hl _ b hb
      have hnil : l = [] := List.eq_nil_of_length_eq_zero (Nat.le_zero.mp hl)
      subst hnil
      exact absurd hb (List.not_mem_nil b)
  | succ n ih =>
      intro l hl hmod b hb
      by_cases hnil : l = []
      · subst hnil; exact absurd hb (List.not_mem_nil b)
      · have hpos : 0 < l.length := List.length_pos.mpr hnil
        have h16 : 16 ≤ l.length := by omega
        rw [toBlocks_ne l hnil] at hb
        rcases List.mem_cons.mp hb with h1 | h2
        · subst h1; rw [List.length_take]; omega
        · exact ih (l.drop 16) (by rw [List.length_drop]; omega)
            (by rw [List.length_drop]; omega) b h2

theorem flatten_len16 (bs : List (List Nat)) (h : ∀ b ∈ bs, b.length = 16) :
    bs.flatten.length = 16 * bs.length := by
  induction bs with
  | nil => rfl
  | cons b bs ih =>
      rw [List.flatten_cons, List.length_append, h b (by simp),
        ih (fun x hx => h x (by simp [hx])), List.length_cons]
      ring

theorem getLastD_irrel (ys : List Nat) (h : ys ≠ []) (d₁ d₂ : Nat) :
    ys.getLastD d₁ = ys.getLastD d₂ := by
  cases ys with
  | nil => exact absurd rfl h
  | cons y ys => rw [List.getLastD_cons, List.getLastD_cons]

theorem getLastD_append_right (xs ys : List Nat) (h : ys ≠ []) :
    ∀ d : Nat, (xs ++ ys).getLastD d = ys.getLastD d := by
  induction xs with
  | nil => intro d; rfl
  | cons x xs ih =>
      intro d
      rw [List.cons_append, List.getLastD_cons, ih x]
      exact getLastD_irrel ys h x d

theorem getLastD_replicate (n a d : Nat) : (List.replicate (n + 1) a).getLastD d = a := by
  induction n generalizing d with
  | zero => rfl
  | succ n ih => rw [List.replicate_succ, List.getLastD_cons]; exact ih a

theorem pkcs7pad_length (p : List Nat) :
    (pkcs7pad p).length = p.length + (16 - p.length % 16) := by
  simp [pkcs7pad]

theorem pkcs7pad_mod (p : List Nat) : (pkcs7pad p).length % 16 = 0 := by
  rw [pkcs7pad_length]; omega

theorem pkcs7pad_ne_nil (p : List Nat) : pkcs7pad p ≠ [] := by
  intro h
  have hl := congrArg List.length h
  rw [pkcs7pad_length] at hl
  simp at hl
  omega

theorem pkcs7unpad_pad (p : List Nat) : pkcs7unpad (pkcs7pad p) = some p := by
  have hk1 : 1 ≤ 16 - p.length % 16 := by omega
  have hk16 : 16 - p.length % 16 ≤ 16 := by omega
  have hrep : List.replicate (16 - p.length % 16) (16 - p.length % 16) ≠ [] := by
    intro h
    have hl := congrArg List.length h
    simp at hl
    omega
  have hpadeq : pkcs7pad p =
      p ++ List.replicate (16 - p.length % 16) (16 - p.length % 16) := rfl
  have hlen : (pkcs7pad p).length = p.length + (16 - p.length % 16) := pkcs7pad_length p
  have hsub : (pkcs7pad p).length - (16 - p.length % 16) = p.length := by omega
  have hlast : (pkcs7pad p).getLastD 0 = 16 - p.length % 16 := by
    rw [hpadeq, getLastD_append_right _ _ hrep 0]
    cases hc : 16 - p.length % 16 with
    | zero => omega
    | succ n => rw [hc] at hc ⊢; exact getLastD_replicate n _ 0
  have hdrop : (pkcs7pad p).drop ((pkcs7pad p).length - (16 - p.length % 16)) =
      List.replicate (16 - p.length % 16) (16 - p.length % 16) := by
    rw [hsub, hpadeq, List.drop_left]
  have htake : (pkcs7pad p).take ((pkcs7pad p).length - (16 - p.length % 16)) = p := by
    rw [hsub, hpadeq, List.take_left]
  have hall : (List.replicate (16 - p.length % 16) (16 - p.length % 16)).all
      (fun b => b == (16 - p.length % 16)) = true := by
    rw [List.all_eq_true]
    intro x hx
    rw [List.eq_of_mem_replicate hx]
    simp
  simp only [pkcs7unpad, hlast, hdrop, htake, hall]
  rw [if_pos ⟨hk1, hk16, by omega, trivial⟩]

theorem decipherFinal_chromeEncrypt (enc dec : KeyFn)
    (hLen : ∀ b, b.length = 16 → (enc b).length = 16)
    (hInv : ∀ b, b.length = 16 → dec (enc b) = b) (p : List Nat) :
    decipherFinal dec ivSpaces ((cbcEncBlocks enc ivSpaces (toBlocks (pkcs7pad p))).flatten) =
      some p := by
  have hiv : (ivSpaces : List Nat).length = 16 := by simp [ivSpaces]
  have hall : ∀ b ∈ toBlocks (pkcs7pad p), b.length = 16 :=
    blocks16_of_mod _ (pkcs7pad_mod p)
  have hctall : ∀ c ∈ cbcEncBlocks enc ivSpaces (toBlocks (pkcs7pad p)), c.length = 16 :=
    cbcEncBlocks_len enc hLen _ _ hiv hall
  have hctlen : (cbcEncBlocks enc ivSpaces (toBlocks (pkcs7pad p))).flatten.length =
      16 * (cbcEncBlocks enc ivSpaces (toBlocks (pkcs7pad p))).length :=
    flatten_len16 _ hctall
  have htbne : toBlocks (pkcs7pad p) ≠ [] := by
    rw [toBlocks_ne _ (pkcs7pad_ne_nil p)]; simp
  have hctne : (cbcEncBlocks enc ivSpaces (toBlocks (pkcs7pad p))).flatten ≠ [] := by
    cases hcb : toBlocks (pkcs7pad p) with
    | nil => exact absurd hcb htbne
    | cons b bs =>
        intro hemp
        have hc16 : (enc (xorBytes b ivSpaces)).length = 16 := by
          apply hctall
          rw [hcb]
          show enc (xorBytes b ivSpaces) ∈
            enc (xorBytes b ivSpaces) :: cbcEncBlocks enc (enc (xorBytes b ivSpaces)) bs
          simp
        have hemp' : enc (xorBytes b ivSpaces) ++
            (cbcEncBlocks enc (enc (xorBytes b ivSpaces)) bs).flatten = [] := by
          rw [← List.flatten_cons]
          exact hemp
        rcases List.append_eq_nil.mp hemp' with ⟨h1, _⟩
        rw [h1] at hc16
        simp at hc16
  unfold decipherFinal
  rw [if_neg (by
    intro h
    rcases h with h1 | h2
    · exact hctne h1
    · exact h2 (by rw [hctlen]; omega))]
  rw [toBlocks_flatten_blocks _ hctall,
    cbcDec_of_cbcEnc enc dec hLen hInv _ _ hiv hall,
    flatten_toBlocks]
  exact pkcs7unpad_pad p

theorem decrypt_chromeEncrypt (enc dec : KeyFn)
    (hLen : ∀ b, b.length = 16 → (enc b).length = 16)
    (hInv : ∀ b, b.length = 16 → dec (enc b) = b) (p : List Nat) :
    decryptCookieValue dec (chromeEncrypt enc p) =
      some (recoverPayload (stripPadding p)) := by
  have htake : (chromeEncrypt enc p).take 3 = v10marker := by
    show (v10marker ++ (cbcEncBlocks enc ivSpaces (toBlocks (pkcs7pad p))).flatten).take 3 =
      v10marker
    rw [show (3 : Nat) = (v10marker : List Nat).length from rfl]
    exact List.take_left _ _
  have hdrop : (chromeEncrypt enc p).drop 3 =
      (cbcEncBlocks enc ivSpaces (toBlocks (pkcs7pad p))).flatten := by
    show (v10marker ++ (cbcEncBlocks enc ivSpaces (toBlocks (pkcs7pad p))).flatten).drop 3 = _
    rw [show (3 : Nat) = (v10marker : List Nat).length from rfl]
    exact List.drop_left _ _
  unfold decryptCookieValue
  rw [htake, hdrop, if_neg (by simp), decipherFinal_chromeEncrypt enc dec hLen hInv p]

/-! ### Sanity: the AES-128 implementation matches FIPS-197 -/

set_option maxRecDepth 100000 in
/-- Known-answer test from FIPS-197 appendix C.1, both directions: the
executable cipher used to instantiate the abstract block parameter is the
real AES-128. -/
theorem aes128_known_answer :
    aesEncBlock fipsKey fipsPlain = fipsCipher ∧
    aesDecBlock fipsKey fipsCipher = fipsPlain := by
  decide

set_option maxRecDepth 100000 in
/-- The inverse S-box table inverts the forward S-box table. -/
theorem subByte_invSubByte : ∀ b < 256, subByte (invSubByte b) = b := by
  decide

/-! ### Claim theorems -/

/-- C1: if the CBC decryption of a well-formed 'v10' ciphertext produces a
buffer whose last byte is outside 1..16, the candidate is discarded:
decryptCookieValue returns none (decipher.final throws on the invalid
padding byte and the catch converts it to null), not the unstripped
output. -/
theorem c1_invalid_padding_discards (key : KeyFn) (ev : List Nat)
    (hmark : ev.take 3 = v10marker)
    (hne : ev.drop 3 ≠ [])
    (hmod : (ev.drop 3).length % 16 = 0)
    (hlast : (cbcDecBlocks key ivSpaces (toBlocks (ev.drop 3))).flatten.getLastD 0 = 0 ∨
      16 < (cbcDecBlocks key ivSpaces (toBlocks (ev.drop 3))).flatten.getLastD 0) :
    decryptCookieValue key ev = none := by
  have hunpad : pkcs7unpad ((cbcDecBlocks key ivSpaces (toBlocks (ev.drop 3))).flatten) =
      none := by
    simp only [pkcs7unpad]
    rw [if_neg (by rintro ⟨h1, h2, _⟩; rcases hlast with h | h <;> omega)]
  have hdf : decipherFinal key ivSpaces (ev.drop 3) = none := by
    unfold decipherFinal
    rw [if_neg (by rintro (h1 | h2); exact hne h1; exact h2 hmod)]
    exact hunpad
  unfold decryptCookieValue
  rw [hmark, if_neg (by simp), hdf]

/-- C1 witness: a concrete 'v10' buffer (one all-space ciphertext block
under the identity block operation) decrypts to sixteen zero bytes, whose
last byte 0 is outside 1..16, and is discarded. -/
theorem c1_invalid_padding_discards_witness :
    decryptCookieValue idKeyFn (v10marker ++ List.replicate 16 32) = none :=
  c1_invalid_padding_discards idKeyFn (v10marker ++ List.replicate 16 32)
    (by decide) (by decide) (by decide) (by decide)

set_option maxRecDepth 100000 in
/-- C2 counterexample: with the real AES-128 under a concrete key, the
plaintext [97, 98, 1] (last byte in 1..16) does not survive the round trip:
the manual padding strip of cookies.ts lines 97-101 runs after
decipher.final has already removed the PKCS#7 padding and cuts a byte off
the true plaintext, returning [97, 98]. -/
theorem c2_roundtrip_counterexample :
    decryptCookieValue (aesDecBlock c2key) (chromeEncrypt (aesEncBlock c2key) c2plain) =
      some [97, 98] ∧
    decryptCookieValue (aesDecBlock c2key) (chromeEncrypt (aesEncBlock c2key) c2plain) ≠
      some c2plain := by
  decide

/-- C2 amended: for every block cipher (any encryption direction of the
correct block length with its inverse) and every plaintext on which the
post-decryption processing is the identity — last byte outside 1..16, no
'eyJ' occurrence at a strictly positive offset, and not subject to the
32-byte metadata skip — decryption inverts encryption exactly. -/
theorem c2_roundtrip_amended (enc dec : KeyFn)
    (hLen : ∀ b, b.length = 16 → (enc b).length = 16)
    (hInv : ∀ b, b.length = 16 → dec (enc b) = b)
    (p : List Nat)
    (hPad : p.getLastD 0 = 0 ∨ 16 < p.getLastD 0)
    (hEyJ : idxOfSub p eyJmarker = none ∨ idxOfSub p eyJmarker = some 0)
    (hSkip : ¬(32 < p.length ∧ 127 < p.headD 0)) :
    decryptCookieValue dec (chromeEncrypt enc p) = some p := by
  rw [decrypt_chromeEncrypt enc dec hLen hInv p]
  have hstrip : stripPadding p = p := by
    simp only [stripPadding]
    rw [if_neg (by rintro ⟨h1, h2⟩; rcases hPad with h | h; exact h1 h; omega)]
  have htail : recoverTail p = p := by
    simp only [recoverTail]
    rw [if_neg hSkip]
  have hrec : recoverPayload p = p := by
    unfold recoverPayload
    rcases hEyJ with h | h
    · rw [h, htail]
    · rw [h]
      simp only [Nat.lt_irrefl, if_false]
      exact htail
  rw [hstrip, hrec]

/-- C2 amended witness: the identity block operation (a legitimate inverse
pair) round-trips the plaintext "hello!" exactly. -/
theorem c2_roundtrip_amended_witness :
    decryptCookieValue idKeyFn (chromeEncrypt idKeyFn [104, 101, 108, 108, 111, 33]) =
      some [104, 101, 108, 108, 111, 33] :=
  c2_roundtrip_amended idKeyFn idKeyFn (fun _ h => h) (fun _ _ => rfl)
    [104, 101, 108, 108, 111, 33] (by decide) (by decide) (by decide)

/-- The marker 'eyJ' never occurs in "token-body", at any starting index. -/
theorem idxOfSubAux_tokenBody (i : Nat) : idxOfSubAux eyJmarker tokenBody i = none := rfl

/-- The marker 'eyJ' cannot occur in a buffer made of a prefix free of the
byte 0x65 ('e') followed by a marker-free suffix: every occurrence would
have to start with that byte. -/
theorem idxOfSubAux_high : ∀ (pre : List Nat), (∀ b ∈ pre, b ≠ 101) →
    ∀ (suf : List Nat), (∀ j, idxOfSubAux eyJmarker suf j = none) →
    ∀ i, idxOfSubAux eyJmarker (pre ++ suf) i = none := by
  intro pre
  induction pre with
  | nil => intro _ suf hsuf i; exact hsuf i
  | cons b pre ih =>
      intro hpre suf hsuf i
      have hb : b ≠ 101 := hpre b (by simp)
      have h101 : (101 == b) = false := by
        cases heq : (101 == b) with
        | false => rfl
        | true =>
            exfalso
            have h2 : (101 : Nat) = b := eq_of_beq heq
            exact hb h2.symm
      have hlm : leadMatch eyJmarker (b :: (pre ++ suf)) = false := by
        show ((101 == b) && leadMatch [121, 74] (pre ++ suf)) = false
        rw [h101, Bool.false_and]
      show (if leadMatch eyJmarker (b :: (pre ++ suf)) = true then some i
            else idxOfSubAux eyJmarker (pre ++ suf) (i + 1)) = none
      rw [hlm]
      simp only [Bool.false_eq_true, if_false]
      exact ih (fun x hx => hpre x (by simp [hx])) suf hsuf (i + 1)

/-- C3 counterexample: a 32-byte metadata block of the non-printable byte
0x01 followed by "token-body" is NOT skipped — the code tests the first
byte against 127, and 0x01 fails that test — so payload recovery returns
the whole buffer, metadata included, not "token-body". -/
theorem c3_metadata_skip_counterexample :
    recoverPayload (List.replicate 32 1 ++ tokenBody) = List.replicate 32 1 ++ tokenBody ∧
    recoverPayload (List.replicate 32 1 ++ tokenBody) ≠ tokenBody := by
  decide

/-- C3 amended: payload recovery returns exactly "token-body" for every
32-byte metadata block of non-printable bytes (below 0x20 or above 0x7e)
whose FIRST byte is greater than 127 — the code tests decrypted[0] > 127,
not general non-printability, so only the leading byte's condition needs
strengthening; the skip fires when the buffer is longer than 32 bytes, its
first byte is above 127 and the remainder starts with a byte below 127. -/
theorem c3_metadata_skip_amended (meta : List Nat)
    (hlen : meta.length = 32)
    (hnp : ∀ b ∈ meta, b < 32 ∨ 126 < b)
    (hfirst : 127 < meta.headD 0) :
    recoverPayload (meta ++ tokenBody) = tokenBody := by
  have hidx : idxOfSub (meta ++ tokenBody) eyJmarker = none :=
    idxOfSubAux_high meta
      (fun b hb => by rcases hnp b hb with h | h <;> omega)
      tokenBody idxOfSubAux_tokenBody 0
  have hlentot : (meta ++ tokenBody).length = 42 := by
    rw [List.length_append, hlen]; rfl
  have hmne : meta ≠ [] := by intro h; rw [h] at hlen; simp at hlen
  have hhead : 127 < (meta ++ tokenBody).headD 0 := by
    cases hm : meta with
    | nil => exact absurd hm hmne
    | cons b t =>
        show (127 : Nat) < b
        rw [hm] at hfirst
        exact hfirst
  have hdrop : (meta ++ tokenBody).drop 32 = tokenBody := by
    rw [← hlen]; exact List.drop_left meta tokenBody
  unfold recoverPayload
  rw [hidx]
  show recoverTail (meta ++ tokenBody) = tokenBody
  simp only [recoverTail]
  rw [if_pos ⟨by rw [hlentot]; omega, hhead⟩, hdrop]
  rw [if_pos (by decide)]

/-- C3 amended witness: metadata of one 0xC8 byte followed by 31 bytes of
0x01 (all non-printable, only the first above 127) then "token-body"
recovers exactly "token-body". -/
theorem c3_metadata_skip_amended_witness :
    recoverPayload ((200 :: List.replicate 31 1) ++ tokenBody) = tokenBody :=
  c3_metadata_skip_amended (200 :: List.replicate 31 1) (by decide)
    (by decide) (by decide)

/-- C4: whenever the first occurrence of 'eyJ' in the decrypted buffer is at
offset 5, payload recovery returns the suffix from that offset, whatever the
5 preceding bytes are — the marker search runs before the 32-byte skip and
the raw fallback. -/
theorem c4_marker_offset (buf : List Nat)
    (h : idxOfSub buf eyJmarker = some 5) :
    recoverPayload buf = buf.drop 5 := by
  unfold recoverPayload
  rw [h]
  rfl

/-- C4 witness: five zero bytes then 'eyJ' plus a tail recover the suffix
starting at the marker. -/
theorem c4_marker_offset_witness :
    recoverPayload [0, 0, 0, 0, 0, 101, 121, 74, 97] =
      List.drop 5 [0, 0, 0, 0, 0, 101, 121, 74, 97] :=
  c4_marker_offset [0, 0, 0, 0, 0, 101, 121, 74, 97] (by decide)

/-- The priority loop over an empty record list finds nothing. -/
theorem prioritySearch_empty (key : Option KeyFn) :
    ∀ ns : List String, prioritySearch key [] ns = none := by
  intro ns
  induction ns with
  | nil => rfl
  | cons n ns ih => exact ih

/-- C5: the Selection Policy follows the fixed priority list: given records
named "other", "session" and "blacksmith_session" (in that iteration order)
that all yield usable values, it selects the "blacksmith_session" value,
not the first record; records with only unknown names fall back to the
first usable record; and in general the fallback loop runs exactly when the
priority loop over COOKIE_NAMES found nothing. -/
theorem c5_selection_priority :
    selectCookie (some idKeyFn) [cookieOther, cookieSession, cookieBlacksmith] =
      some [98, 49, 49] ∧
    selectCookie (some idKeyFn) [cookieUnknownA, cookieUnknownB] = some [120] ∧
    (∀ (key : Option KeyFn) (cs : List ChromeCookie),
      prioritySearch key cs COOKIE_NAMES = none →
      selectCookie key cs = fallbackSearch key cs) := by
  refine ⟨by decide, by decide, ?_⟩
  intro key cs h
  unfold selectCookie
  rw [h]

/-- C5 witness for the general fallback clause, at a concrete record list
with no known name. -/
theorem c5_selection_priority_witness :
    selectCookie (some idKeyFn) [cookieUnknownA, cookieUnknownB] =
      fallbackSearch (some idKeyFn) [cookieUnknownA, cookieUnknownB] :=
  c5_selection_priority.2.2 (some idKeyFn) [cookieUnknownA, cookieUnknownB] (by decide)

/-- C6: a non-empty BLACKSMITH_SESSION_COOKIE override is returned directly,
for every state of the outside world (the Chrome pipeline — store locator,
key provider and all — is not entered: the flag is false and the result does
not depend on the world). -/
theorem c6_override_shortcircuit (w : World) (v : List Nat) (hv : v ≠ []) :
    getSessionCookie (some v) w = (some v, false) := by
  show (if v ≠ [] then ((some v : Option (List Nat)), false)
        else (extractBlacksmithCookie w, true)) = (some v, false)
  rw [if_pos hv]

/-- C6 witness: a concrete override in a world with no store at all. -/
theorem c6_override_shortcircuit_witness :
    getSessionCookie (some [116, 111, 107]) wNoStore = (some [116, 111, 107], false) :=
  c6_override_shortcircuit wNoStore [116, 111, 107] (by decide)

/-- C7: for every world, extractBlacksmithCookie terminates with a value or
the absence signal, and whenever the inner pipeline raises (database open or
query throwing), the catch converts it to the absence signal — no exception
crosses the subsystem boundary. -/
theorem c7_no_exception_propagation (w : World) :
    (extractBlacksmithCookie w = none ∨ ∃ v, extractBlacksmithCookie w = some v) ∧
    (∀ e, chromePipeline w = Except.error e → extractBlacksmithCookie w = none) := by
  constructor
  · cases h : extractBlacksmithCookie w with
    | none => exact Or.inl rfl
    | some v => exact Or.inr ⟨v, rfl⟩
  · intro e he
    unfold extractBlacksmithCookie
    rw [he]

/-- C7 witness: a world where opening the store throws resolves to the
absence signal. -/
theorem c7_no_exception_propagation_witness :
    extractBlacksmithCookie wOpenThrows = none :=
  (c7_no_exception_propagation wOpenThrows).2 "open failed" rfl

/-- C8 counterexample: the resolver's absence outcomes are not
distinguishable — a world with no candidate store path and a world whose
store opens with zero matching rows produce the very same result, the
single absence value none, not distinct Unavailable/NotFound outcomes. -/
theorem c8_absence_counterexample :
    extractBlacksmithCookie wNoStore = none ∧
    extractBlacksmithCookie wEmptyStore = none ∧
    extractBlacksmithCookie wNoStore = extractBlacksmithCookie wEmptyStore := by
  decide

/-- C8 amended: the resolver's result type is an option (token or null);
both the missing-store case and the zero-row case return the same null. -/
theorem c8_absence_amended (w : World)
    (h : findCookieDatabase w = none ∨ (w.openOk = true ∧ w.queryOk = true ∧ w.rows = [])) :
    extractBlacksmithCookie w = none := by
  have hsel : selectCookie (pipelineKey w) [] = none := by
    unfold selectCookie
    rw [prioritySearch_empty (pipelineKey w) COOKIE_NAMES]
    rfl
  unfold extractBlacksmithCookie chromePipeline
  rcases h with h1 | ⟨ho, hq, hr⟩
  · rw [h1]
  · cases hfd : findCookieDatabase w with
    | none => rfl
    | some pth =>
        simp only [ho, hq, hr, hsel]
        rfl

/-- C8 amended witness: a world with no existing store path resolves to
null, through the amended statement. -/
theorem c8_absence_amended_witness :
    extractBlacksmithCookie wNoStore = none :=
  c8_absence_amended wNoStore (Or.inl rfl)

/-- C9: any encrypted-value buffer whose first three bytes are not the
'v10' version marker is returned whole and unchanged as the plaintext
value, with no decryption performed. -/
theorem c9_plaintext_passthrough (key : KeyFn) (ev : List Nat)
    (h : ev.take 3 ≠ v10marker) :
    decryptCookieValue key ev = some ev := by
  unfold decryptCookieValue
  rw [if_pos h]

/-- C9 witness: a concrete unmarked buffer passes through untouched. -/
theorem c9_plaintext_passthrough_witness :
    decryptCookieValue idKeyFn [1, 2, 3, 4] = some [1, 2, 3, 4] :=
  c9_plaintext_passthrough idKeyFn [1, 2, 3, 4] (by decide)

/-- C10: off darwin the pipeline never obtains an encryption key — even in
a world whose keychain holds one — so a record whose plain value is empty
and whose encrypted value is non-empty yields the absence signal. -/
theorem c10_nondarwin_no_key (w : World) (c : ChromeCookie)
    (hplat : w.platform ≠ "darwin") (hval : c.value = []) (henc : c.encrypted_value ≠ []) :
    pipelineKey w = none ∧ getCookieValue c (pipelineKey w) = none := by
  have hk : pipelineKey w = none := by
    unfold pipelineKey
    rw [if_neg hplat]
  refine ⟨hk, ?_⟩
  unfold getCookieValue
  rw [hval, hk, if_neg (by simp), if_pos henc]

/-- C10 witness: a linux world with a keychain secret present still derives
no key, and an encrypted-only record resolves to the absence signal. -/
theorem c10_nondarwin_no_key_witness :
    pipelineKey wLinuxKey = none ∧
    getCookieValue cookieEncOnly (pipelineKey wLinuxKey) = none :=
  c10_nondarwin_no_key wLinuxKey cookieEncOnly (by decide) rfl (by decide)
